import Mathlib

set_option linter.unnecessarySeqFocus false
set_option linter.unusedVariables false

/-!
Verification of mauview (a Go TUI library) layout and event-routing logic.

Shallow embedding conventions:
* Go `int` is modelled as `Int`; Go integer division `/` and remainder `%`
  truncate toward zero, which is `Int.tdiv` / `Int.tmod`.
* A method that either calls into a parent surface or silently returns is
  modelled as a function returning `Option` of the arguments of the parent
  call (`none` = the call is dropped).
-/

namespace Mauview

/-! ## ProxyScreen (screen.go)

`ProxyScreen` is a proxy to a `tcell.Screen` with a specific allowed drawing
area.  We model the four geometry fields; the `Parent` and `Style` fields do
not affect coordinate logic. -/

structure ProxyScreen where
  OffsetX : Int
  OffsetY : Int
  Width : Int
  Height : Int
  deriving DecidableEq, Repr

/-- `func (ss *ProxyScreen) IsInArea(x, y int) bool` from screen.go:
`x >= ss.OffsetX && x <= ss.OffsetX+ss.Width && y >= ss.OffsetY && y <= ss.OffsetY+ss.Height`. -/
def ProxyScreen.IsInArea (ss : ProxyScreen) (x y : Int) : Bool :=
  decide (x ≥ ss.OffsetX ∧ x ≤ ss.OffsetX + ss.Width ∧
          y ≥ ss.OffsetY ∧ y ≤ ss.OffsetY + ss.Height)

/-- `func (ss *ProxyScreen) adjustCoordinates(x, y int) (int, int, bool)` from screen.go:
rejects when `x < 0 || y < 0 || (ss.Width >= 0 && x >= ss.Width) || (ss.Height >= 0 && y >= ss.Height)`,
otherwise translates by the offset. -/
def ProxyScreen.adjustCoordinates (ss : ProxyScreen) (x y : Int) : Int × Int × Bool :=
  if x < 0 ∨ y < 0 ∨ (ss.Width ≥ 0 ∧ x ≥ ss.Width) ∨ (ss.Height ≥ 0 ∧ y ≥ ss.Height) then
    (-1, -1, false)
  else
    (x + ss.OffsetX, y + ss.OffsetY, true)

/-- `ProxyScreen.SetCell`: the coordinates of the `ss.Parent.SetCell` call it makes,
or `none` when the write is dropped. -/
def ProxyScreen.SetCellCall (ss : ProxyScreen) (x y : Int) : Option (Int × Int) :=
  let r := ss.adjustCoordinates x y
  if r.2.2 then some (r.1, r.2.1) else none

/-- `ProxyScreen.SetContent`: the coordinates of the `ss.Parent.SetContent` call it
makes, or `none` when the write is dropped. -/
def ProxyScreen.SetContentCall (ss : ProxyScreen) (x y : Int) : Option (Int × Int) :=
  let r := ss.adjustCoordinates x y
  if r.2.2 then some (r.1, r.2.1) else none

/-- `ProxyScreen.ShowCursor`: the coordinates of the `ss.Parent.ShowCursor` call it
makes, or `none` when the call is dropped. -/
def ProxyScreen.ShowCursorCall (ss : ProxyScreen) (x y : Int) : Option (Int × Int) :=
  let r := ss.adjustCoordinates x y
  if r.2.2 then some (r.1, r.2.1) else none

end Mauview

namespace Mauview

/-- C1 fails as stated: a `ProxyScreen` whose `Width` is negative skips the upper
bound check (`ss.Width >= 0 && x >= ss.Width` is false), so a write at local
`(0,0)` is forwarded to the parent even though `0 ≤ 0 < Width` does not hold. -/
theorem C1_counterexample :
    ProxyScreen.SetCellCall ⟨0, 0, -1, 5⟩ 0 0 = some (0, 0) ∧
    ¬ ((0 : Int) ≤ 0 ∧ (0 : Int) < -1) := by
  constructor
  · rfl
  · decide

/-- C1 (amended): for every `ProxyScreen` with nonnegative `Width` and `Height`,
each write operation (`SetCell`, `SetContent`, `ShowCursor`) at local `(x, y)` is
forwarded to the parent at exactly `(x + OffsetX, y + OffsetY)` when
`0 ≤ x < Width ∧ 0 ≤ y < Height`, and is dropped (no parent call) otherwise. -/
theorem C1_amended (ss : ProxyScreen) (x y : Int)
    (hw : 0 ≤ ss.Width) (hh : 0 ≤ ss.Height) :
    (ss.SetCellCall x y =
      if 0 ≤ x ∧ x < ss.Width ∧ 0 ≤ y ∧ y < ss.Height then
        some (x + ss.OffsetX, y + ss.OffsetY)
      else none) ∧
    ss.SetContentCall x y = ss.SetCellCall x y ∧
    ss.ShowCursorCall x y = ss.SetCellCall x y := by
  refine ⟨?_, rfl, rfl⟩
  unfold ProxyScreen.SetCellCall ProxyScreen.adjustCoordinates
  by_cases h : x < 0 ∨ y < 0 ∨ (ss.Width ≥ 0 ∧ x ≥ ss.Width) ∨ (ss.Height ≥ 0 ∧ y ≥ ss.Height)
  · simp only [h, if_true]
    have : ¬ (0 ≤ x ∧ x < ss.Width ∧ 0 ≤ y ∧ y < ss.Height) := by
      rintro ⟨h1, h2, h3, h4⟩
      rcases h with h | h | ⟨_, h⟩ | ⟨_, h⟩ <;> omega
    simp [this]
  · simp only [h, if_false]
    have : 0 ≤ x ∧ x < ss.Width ∧ 0 ≤ y ∧ y < ss.Height := by
      push_neg at h
      obtain ⟨h1, h2, h3, h4⟩ := h
      exact ⟨h1, h3 hw, h2, h4 hh⟩
    simp [this]

/-- Witness for `C1_amended` at the concrete proxy `(OffsetX, OffsetY, Width, Height)
= (2, 3, 4, 5)` and local coordinate `(1, 2)`: the write lands at parent `(3, 5)`. -/
theorem C1_amended_witness :
    (0 : Int) ≤ (ProxyScreen.mk 2 3 4 5).Width ∧
    (0 : Int) ≤ (ProxyScreen.mk 2 3 4 5).Height ∧
    ((ProxyScreen.mk 2 3 4 5).SetCellCall 1 2 =
      if 0 ≤ (1 : Int) ∧ (1 : Int) < (ProxyScreen.mk 2 3 4 5).Width ∧
         0 ≤ (2 : Int) ∧ (2 : Int) < (ProxyScreen.mk 2 3 4 5).Height then
        some (1 + (ProxyScreen.mk 2 3 4 5).OffsetX, 2 + (ProxyScreen.mk 2 3 4 5).OffsetY)
      else none) ∧
    (ProxyScreen.mk 2 3 4 5).SetContentCall 1 2 = (ProxyScreen.mk 2 3 4 5).SetCellCall 1 2 ∧
    (ProxyScreen.mk 2 3 4 5).ShowCursorCall 1 2 = (ProxyScreen.mk 2 3 4 5).SetCellCall 1 2 :=
  ⟨by decide, by decide, C1_amended ⟨2, 3, 4, 5⟩ 1 2 (by decide) (by decide)⟩

/-- C2 fails as stated: `IsInArea` uses inclusive comparisons
(`x <= OffsetX + Width`), so the parent-space point `x = OffsetX + Width`
is accepted by hit-testing although no in-bounds draw of the proxy can
touch that column (draws require `x < Width` before translation). -/
theorem C2_counterexample :
    ProxyScreen.IsInArea ⟨0, 0, 10, 5⟩ 10 0 = true ∧
    ¬ ((0 : Int) ≤ 10 ∧ (10 : Int) < 0 + 10) := by
  constructor
  · rfl
  · decide

/-- C2 (amended): `IsInArea` accepts exactly the closed rectangle
`[OffsetX, OffsetX + Width] × [OffsetY, OffsetY + Height]` — one row and one
column larger than the half-open rectangle that in-bounds draws can touch; every
parent-space cell actually touched by a forwarded write of a proxy with
nonnegative dimensions does satisfy `IsInArea`. -/
theorem C2_amended (ss : ProxyScreen) (x y : Int) :
    (ss.IsInArea x y = true ↔
      ss.OffsetX ≤ x ∧ x ≤ ss.OffsetX + ss.Width ∧
      ss.OffsetY ≤ y ∧ y ≤ ss.OffsetY + ss.Height) ∧
    (0 ≤ ss.Width → 0 ≤ ss.Height →
      ∀ px py, ss.SetCellCall x y = some (px, py) → ss.IsInArea px py = true) := by
  constructor
  · simp [ProxyScreen.IsInArea, and_assoc]
  · intro hw hh px py hcall
    unfold ProxyScreen.SetCellCall ProxyScreen.adjustCoordinates at hcall
    by_cases h : x < 0 ∨ y < 0 ∨ (ss.Width ≥ 0 ∧ x ≥ ss.Width) ∨ (ss.Height ≥ 0 ∧ y ≥ ss.Height)
    · simp [h] at hcall
    · simp only [h, if_false, if_true] at hcall
      push_neg at h
      obtain ⟨h1, h2, h3, h4⟩ := h
      obtain ⟨hx, hy⟩ : px = x + ss.OffsetX ∧ py = y + ss.OffsetY := by
        simpa using hcall.symm
      subst hx; subst hy
      simp only [ProxyScreen.IsInArea, decide_eq_true_eq]
      have := h3 hw
      have := h4 hh
      omega

/-- Witness for `C2_amended` at the proxy `(2, 3, 4, 5)` and local `(1, 2)`:
the forwarded parent cell `(3, 5)` passes `IsInArea`. -/
theorem C2_amended_witness :
    (ProxyScreen.mk 2 3 4 5).IsInArea 3 5 = true :=
  (C2_amended ⟨2, 3, 4, 5⟩ 1 2).2 (by decide) (by decide) 3 5 (by rfl)

/-! ## Flex layout (flex.go)

A `flexChild` stores a single `size` field: positive for fixed-size children,
negative for proportional children (the weight is `-size`).  We model the child
list by the list of stored `size` values, in order. -/

/-- `Flex.AddProportionalComponent(comp, size)` appends a child with stored
size `-size`. -/
def addProportionalComponent (children : List Int) (size : Int) : List Int :=
  children ++ [-size]

/-- `Flex.AddFixedComponent(comp, size)` is `AddProportionalComponent(comp, -size)`,
so the stored size is `size` itself. -/
def addFixedComponent (children : List Int) (size : Int) : List Int :=
  addProportionalComponent children (-size)

/-- First loop of `Flex.Draw`: starting from `(totalSize, 0)`, subtract each
positive (fixed) size from the first component and add each proportional
weight (`-size`) to the second, yielding `(relTotalSize, relParts)`. -/
def flexRelSizes (children : List Int) (totalSize : Int) : Int × Int :=
  children.foldl
    (fun acc size => if size > 0 then (acc.1 - size, acc.2) else (acc.1, acc.2 - size))
    (totalSize, 0)

/-- Size assigned to one child in the second loop of `Flex.Draw`:
`if size < 0 { size = relTotalSize * (-size) / relParts }` with Go's
truncating division. -/
def flexAssignedSize (relTotalSize relParts size : Int) : Int :=
  if size < 0 then Int.tdiv (relTotalSize * (-size)) relParts else size

/-- Second loop of `Flex.Draw`: assign each child its `(offset, size)` pair
along the flex direction, accumulating `offset += size`. -/
def flexAssign (relTotalSize relParts : Int) : List Int → Int → List (Int × Int)
  | [], _ => []
  | size :: rest, offset =>
    let assigned := flexAssignedSize relTotalSize relParts size
    (offset, assigned) :: flexAssign relTotalSize relParts rest (offset + assigned)

/-- `Flex.Draw` geometry: the `(offset, size)` pair of each child along the
flex direction (for `FlexColumn` these are `OffsetX`/`Width`, for `FlexRow`
`OffsetY`/`Height`), given the total available extent `totalSize`. -/
def flexDraw (children : List Int) (totalSize : Int) : List (Int × Int) :=
  let rel := flexRelSizes children totalSize
  flexAssign rel.1 rel.2 children 0

/-- Sum of the positive (fixed) stored sizes in a child list. -/
def posSum : List Int → Int
  | [] => 0
  | v :: rest => (if 0 < v then v else 0) + posSum rest

/-- Sum of the magnitudes of the nonpositive (proportional) stored sizes:
the total proportional weight. -/
def negUnits : List Int → Int
  | [] => 0
  | v :: rest => (if 0 < v then 0 else -v) + negUnits rest

theorem negUnits_nonneg (l : List Int) : 0 ≤ negUnits l := by
  induction l with
  | nil => simp [negUnits]
  | cons v rest ih =>
    unfold negUnits
    by_cases h : 0 < v <;> simp [h] <;> omega

theorem flexRelSizes_eq (children : List Int) (totalSize : Int) :
    flexRelSizes children totalSize = (totalSize - posSum children, negUnits children) := by
  suffices h : ∀ (a b : Int),
      children.foldl
        (fun acc size => if size > 0 then (acc.1 - size, acc.2) else (acc.1, acc.2 - size))
        (a, b) = (a - posSum children, b + negUnits children) by
    have := h totalSize 0
    simpa [flexRelSizes] using this
  induction children with
  | nil => intro a b; simp [posSum, negUnits]
  | cons v rest ih =>
    intro a b
    by_cases h : 0 < v <;>
      simp only [List.foldl_cons, gt_iff_lt, h, if_true, if_false, ih, posSum, negUnits,
        Prod.mk.injEq] <;>
      constructor <;> ring

theorem flexAssign_getElem (a b : Int) (l : List Int) (off : Int) (i : Nat) :
    (flexAssign a b l off)[i]? =
      (l[i]?).map (fun s =>
        (off + ((l.take i).map (flexAssignedSize a b)).sum, flexAssignedSize a b s)) := by
  induction l generalizing off i with
  | nil => simp [flexAssign]
  | cons v rest ih =>
    cases i with
    | zero => simp [flexAssign]
    | succ j =>
      simp only [flexAssign, List.getElem?_cons_succ, List.take_succ_cons, List.map_cons,
        List.sum_cons, ih]
      cases rest[j]? with
      | none => simp
      | some t => simp [add_assoc]

end Mauview

namespace Mauview

/-- C3 fails as stated: with one fixed child of size 10 and two proportional
children of weight 1 at total extent 5, the remaining space is `5 - 10 = -5`
and Go's `/` truncates toward zero, so each proportional child receives
`(-5 * 1) / 2 = -2`, not `floor(-5 / 2) = -3` as the claim's `floor` formula
demands. -/
theorem C3_counterexample :
    flexDraw [10, -1, -1] 5 = [(0, 10), (10, -2), (8, -2)] ∧
    Int.fdiv ((5 - 10) * 1) 2 = -3 ∧ (-2 : Int) ≠ -3 := by
  refine ⟨by decide, by decide, by decide⟩

/-- C3 (amended): in `Flex.Draw`, each fixed child receives exactly its fixed
size, each proportional child receives `(totalSpace - reserved) * weight /
totalWeight` computed with Go's truncation-toward-zero division (which equals
the claimed `floor` whenever `totalSpace ≥ reserved`), and child offsets
accumulate in list order starting at 0; the scenario (fixed 10, weights 1 and 3,
total 50) yields sizes `[10, 10, 30]` at offsets `[0, 10, 20]`. -/
theorem C3_amended (children : List Int) (totalSize : Int) :
    (∀ i : Nat,
      (flexDraw children totalSize)[i]? =
        (children[i]?).map (fun s =>
          (((children.take i).map
              (flexAssignedSize (flexRelSizes children totalSize).1
                (flexRelSizes children totalSize).2)).sum,
           flexAssignedSize (flexRelSizes children totalSize).1
             (flexRelSizes children totalSize).2 s))) ∧
    (∀ s : Int, 0 < s →
      flexAssignedSize (flexRelSizes children totalSize).1
        (flexRelSizes children totalSize).2 s = s) ∧
    (0 ≤ (flexRelSizes children totalSize).1 →
      ∀ s : Int, s < 0 →
        flexAssignedSize (flexRelSizes children totalSize).1
          (flexRelSizes children totalSize).2 s =
        Int.fdiv ((flexRelSizes children totalSize).1 * (-s))
          (flexRelSizes children totalSize).2) ∧
    flexDraw (addProportionalComponent (addProportionalComponent (addFixedComponent [] 10) 1) 3) 50 =
      [(0, 10), (10, 10), (20, 30)] := by
  refine ⟨?_, ?_, ?_, by decide⟩
  · intro i
    have h := flexAssign_getElem (flexRelSizes children totalSize).1
      (flexRelSizes children totalSize).2 children 0 i
    simpa [flexDraw] using h
  · intro s hs
    simp [flexAssignedSize, not_lt.mpr (le_of_lt hs)]
  · intro hrel s hs
    have hb : 0 ≤ (flexRelSizes children totalSize).2 := by
      rw [flexRelSizes_eq]; exact negUnits_nonneg children
    have ha : 0 ≤ (flexRelSizes children totalSize).1 * (-s) := by
      have : (0 : Int) ≤ -s := by omega
      exact mul_nonneg hrel this
    unfold flexAssignedSize
    rw [if_pos hs, Int.fdiv_eq_tdiv ha hb]

/-- Witness for `C3_amended` at children `[10, -1, -3]` (fixed 10, weights 1
and 3) and total extent 50: the proportional child of weight 3 receives the
floor formula's value. -/
theorem C3_amended_witness :
    flexAssignedSize (flexRelSizes [10, -1, -3] 50).1 (flexRelSizes [10, -1, -3] 50).2 (-3) =
      Int.fdiv ((flexRelSizes [10, -1, -3] 50).1 * (-(-3))) (flexRelSizes [10, -1, -3] 50).2 :=
  (C3_amended [10, -1, -3] 50).2.2.1 (by decide) (-3) (by decide)

/-! ## Grid layout (grid.go)

A grid stores per-column widths (`columnWidths`) and per-row heights
(`rowHeights`): a nonnegative entry is an absolute extent, a negative entry is
a dynamic entry whose magnitude is its weight. -/

/-- `func pnSum(arr []int) (int, int)` from grid.go: the pair of the sum of
nonnegative entries and the sum of the magnitudes of the negative entries. -/
def pnSum (arr : List Int) : Int × Int :=
  arr.foldl (fun acc i => if i < 0 then (acc.1, acc.2 - i) else (acc.1 + i, acc.2)) (0, 0)

/-- Loop body of `fillDynamic`, carrying the mutable `remainder`:
`newArr[i] = part * -val; if remainder > 0 { remainder--; newArr[i]++ }`
for dynamic entries, fixed entries are copied. -/
def fillDynamicGo (part : Int) : List Int → Int → List Int
  | [], _ => []
  | val :: rest, remainder =>
    if val < 0 then
      if remainder > 0 then
        (part * (-val) + 1) :: fillDynamicGo part rest (remainder - 1)
      else
        (part * (-val)) :: fillDynamicGo part rest remainder
    else
      val :: fillDynamicGo part rest remainder

/-- `func fillDynamic(arr []int, size, dynamicItems int) []int` from grid.go:
distribute `size` over the dynamic entries, `part = size / dynamicItems`
per weight unit and the remainder one cell at a time (Go truncating `/`, `%`). -/
def fillDynamic (arr : List Int) (size dynamicItems : Int) : List Int :=
  if dynamicItems = 0 then arr
  else fillDynamicGo (Int.tdiv size dynamicItems) arr (Int.tmod size dynamicItems)

/-- Column pass of `Grid.OnResize`:
`absColWidth, dynamicColumns := pnSum(grid.columnWidths);
columnWidths := fillDynamic(grid.columnWidths, width-absColWidth, dynamicColumns)`.
(The row pass is identical with `rowHeights` and `height`.) -/
def gridColumnWidths (columnWidths : List Int) (width : Int) : List Int :=
  let pn := pnSum columnWidths
  fillDynamic columnWidths (width - pn.1) pn.2

theorem pnSum_eq (arr : List Int) : pnSum arr = (posSum arr, negUnits arr) := by
  suffices h : ∀ (a b : Int),
      arr.foldl (fun acc i => if i < 0 then (acc.1, acc.2 - i) else (acc.1 + i, acc.2)) (a, b) =
        (a + posSum arr, b + negUnits arr) by
    have := h 0 0
    simpa [pnSum] using this
  induction arr with
  | nil => intro a b; simp [posSum, negUnits]
  | cons v rest ih =>
    intro a b
    by_cases h : v < 0 <;>
      simp only [List.foldl_cons, h, if_true, if_false, ih, posSum, negUnits, Prod.mk.injEq]
    · have hv : ¬ 0 < v := by omega
      simp only [hv, if_false]
      constructor <;> ring
    · have hv : (if 0 < v then v else 0) = v ∧ (if 0 < v then 0 else -v) = 0 := by
        by_cases h0 : 0 < v <;> simp [h0] <;> omega
      rw [hv.1, hv.2]
      constructor <;> ring

/-- Sum of `fillDynamicGo` when every dynamic entry has weight 1: each of the
first `remainder` dynamic entries gets `part + 1`, the rest get `part`. -/
theorem fillDynamicGo_sum (arr : List Int) (part remainder : Int)
    (hneg : ∀ v ∈ arr, v < 0 → v = -1)
    (h0 : 0 ≤ remainder) (hle : remainder ≤ negUnits arr) :
    (fillDynamicGo part arr remainder).sum = posSum arr + part * negUnits arr + remainder := by
  induction arr generalizing remainder with
  | nil =>
    simp only [negUnits] at hle
    simp only [fillDynamicGo, List.sum_nil, posSum, negUnits]
    omega
  | cons v rest ih =>
    have hnegr : ∀ v ∈ rest, v < 0 → v = -1 := fun w hw => hneg w (List.mem_cons_of_mem v hw)
    by_cases h : v < 0
    · have hv1 : v = -1 := hneg v (List.mem_cons_self v rest) h
      subst hv1
      by_cases hr : remainder > 0
      · have := ih (remainder - 1) hnegr (by omega)
          (by simp only [negUnits] at hle; norm_num at hle; omega)
        simp only [fillDynamicGo, if_pos (by norm_num : (-1 : Int) < 0), if_pos hr,
          List.sum_cons, this, posSum, negUnits]
        norm_num
        ring
      · have hr0 : remainder = 0 := by omega
        subst hr0
        have := ih 0 hnegr (by omega)
          (by simp only [negUnits] at hle ⊢; norm_num at hle ⊢; exact negUnits_nonneg rest)
        simp only [fillDynamicGo, if_pos (by norm_num : (-1 : Int) < 0), if_neg (by omega :
          ¬ (0 : Int) > 0), List.sum_cons, this, posSum, negUnits]
        norm_num
        ring
    · have hnu : negUnits (v :: rest) = negUnits rest := by
        have heq : negUnits (v :: rest) = (if 0 < v then 0 else -v) + negUnits rest := rfl
        rw [heq]
        by_cases h0 : 0 < v
        · simp [h0]
        · simp only [h0, if_false]
          omega
      have hps : posSum (v :: rest) = v + posSum rest := by
        have heq : posSum (v :: rest) = (if 0 < v then v else 0) + posSum rest := rfl
        rw [heq]
        by_cases h0 : 0 < v
        · simp [h0]
        · simp only [h0, if_false]
          omega
      have hler : remainder ≤ negUnits rest := by rw [hnu] at hle; exact hle
      have := ih remainder hnegr h0 hler
      simp only [fillDynamicGo, if_neg h, List.sum_cons, this, hps, hnu]
      ring

/-- C4 fails as stated: a Flex with three proportional children of weight 1 and
total extent 10 assigns `10 * 1 / 3 = 3` to each child, so the extents sum to
9, leaving a one-cell gap. -/
theorem C4_counterexample :
    ((flexDraw [-1, -1, -1] 10).map Prod.snd).sum = 9 ∧ (9 : Int) ≠ 10 := by
  refine ⟨by decide, by decide⟩

/-- C4 (amended): in `Grid.OnResize` (`pnSum` + `fillDynamic`), for any mix of
fixed entries and dynamic entries of weight 1, with at least one dynamic entry
and the fixed entries fitting in the available extent, the computed extents sum
exactly to the available extent (the remainder of the division is spread one
cell at a time over the dynamic entries); Flex layouts and grids with dynamic
weights larger than 1 can instead leave a rounding gap. -/
theorem C4_amended (arr : List Int) (width : Int)
    (hneg : ∀ v ∈ arr, v < 0 → v = -1)
    (hdyn : 0 < (pnSum arr).2)
    (hfit : (pnSum arr).1 ≤ width) :
    (gridColumnWidths arr width).sum = width := by
  rw [pnSum_eq] at hdyn hfit
  simp only [gridColumnWidths, fillDynamic, pnSum_eq]
  rw [if_neg (by omega : ¬ negUnits arr = 0)]
  have hsize : 0 ≤ width - posSum arr := by omega
  have hmod0 : 0 ≤ Int.tmod (width - posSum arr) (negUnits arr) :=
    Int.tmod_nonneg _ hsize
  have hmodlt : Int.tmod (width - posSum arr) (negUnits arr) < negUnits arr :=
    Int.tmod_lt_of_pos _ hdyn
  rw [fillDynamicGo_sum arr _ _ hneg hmod0 (le_of_lt hmodlt)]
  have := Int.tdiv_add_tmod' (width - posSum arr) (negUnits arr)
  omega

/-- Witness for `C4_amended` at columns `[2, -1, -1]` (one fixed column of
width 2, two dynamic columns of weight 1) and available width 7: the computed
widths `[2, 3, 2]` sum to 7. -/
theorem C4_amended_witness :
    (gridColumnWidths [2, -1, -1] 7).sum = 7 :=
  C4_amended [2, -1, -1] 7 (by decide) (by decide) (by decide)

/-! ## Container focus state (flex.go / grid.go)

For the focus invariant we only need each child's component identity; we model
components by `Nat` identifiers, a `Flex` by its list of child component ids
and the id of the focused child (if any).  `Grid.RemoveComponent` has exactly
the same removal loop. -/

structure FlexM where
  children : List Nat
  focused : Option Nat
  deriving DecidableEq, Repr

/-- `Flex.RemoveComponent` (flex.go): iterate from the end and splice out every
child whose target is `comp`; the `focused` field is not touched. -/
def FlexM.removeComponent (f : FlexM) (comp : Nat) : FlexM :=
  { f with children := f.children.filter (fun c => c != comp) }

/-- `Flex.SetFocused` (flex.go): for each child whose target is `comp`, set
`flex.focused` to it. -/
def FlexM.setFocused (f : FlexM) (comp : Nat) : FlexM :=
  if f.children.contains comp then { f with focused := some comp } else f

/-- C5 is the intended invariant but the code breaks it: after focusing the
only child of a Flex and removing that same component, `flex.focused` still
points at the removed child while the children list is empty.
(`Grid.RemoveComponent` in grid.go has the identical loop and the identical
omission.) -/
theorem C5_theorem :
    ((FlexM.mk [1] none).setFocused 1).removeComponent 1 =
      { children := [], focused := some 1 } ∧
    ¬ (1 ∈ (((FlexM.mk [1] none).setFocused 1).removeComponent 1).children) := by
  refine ⟨by decide, by decide⟩

/-! ## Application run loop: bracketed paste composition (Application.Start)

The `for { select { ... } }` loop keeps `isPasting : bool` and a
`pasteBuffer strings.Builder`.  We model the loop's event-dispatch behaviour as
a fold over the incoming `tcell` events, collecting the calls made on
`app.root`. -/

/-- The key classification the loop makes: `tcell.KeyRune`, `tcell.KeyEnter`,
or any other key. -/
inductive TKeyKind
  | keyRune (c : Char)
  | keyEnter
  | keyOther
  deriving DecidableEq, Repr

/-- Events the loop reads from the `events` channel (the cases of the `switch`
that matter for paste composition; `eventPaste b` models `*tcell.EventPaste`
with `Start() = b`). -/
inductive TcellEvent
  | eventKey (k : TKeyKind)
  | eventPaste (start : Bool)
  | eventMouse
  deriving DecidableEq, Repr

/-- Paste-composition state of the loop: `isPasting` and the contents of
`pasteBuffer`. -/
structure PasteState where
  isPasting : Bool
  pasteBuffer : List Char
  deriving DecidableEq, Repr

/-- Calls the loop makes on `app.root`. -/
inductive RootDispatch
  | keyEvt (k : TKeyKind)
  | pasteEvt (text : List Char)
  | mouseEvt
  deriving DecidableEq, Repr

/-- What one key event appends to the paste buffer while `isPasting`:
`KeyRune` writes `event.Rune()`, `KeyEnter` writes `'\n'`, other keys write
nothing. -/
def pasteKeyChars : TKeyKind → List Char
  | .keyRune c => [c]
  | .keyEnter => ['\n']
  | .keyOther => []

/-- One iteration of the `select` on an incoming `tcell` event
(Application.Start): the successor state and the calls made on `app.root`. -/
def handleEvent (s : PasteState) : TcellEvent → PasteState × List RootDispatch
  | .eventKey k =>
    if s.isPasting then
      ({ s with pasteBuffer := s.pasteBuffer ++ pasteKeyChars k }, [])
    else
      (s, [.keyEvt k])
  | .eventPaste start =>
    if start then
      ({ isPasting := true, pasteBuffer := [] }, [])
    else
      ({ isPasting := false, pasteBuffer := [] }, [.pasteEvt s.pasteBuffer])
  | .eventMouse => (s, [.mouseEvt])

/-- Run the loop over a list of incoming events, accumulating the calls made on
`app.root` in order. -/
def runEvents (s : PasteState) : List TcellEvent → PasteState × List RootDispatch
  | [] => (s, [])
  | e :: rest =>
    let r := handleEvent s e
    let r' := runEvents r.1 rest
    (r'.1, r.2 ++ r'.2)

theorem runEvents_append (s : PasteState) (l1 l2 : List TcellEvent) :
    runEvents s (l1 ++ l2) =
      ((runEvents (runEvents s l1).1 l2).1,
       (runEvents s l1).2 ++ (runEvents (runEvents s l1).1 l2).2) := by
  induction l1 generalizing s with
  | nil => simp [runEvents]
  | cons e rest ih =>
    simp [runEvents, ih]

theorem runEvents_keys_while_pasting (ks : List TKeyKind) (buf : List Char) :
    runEvents ⟨true, buf⟩ (ks.map TcellEvent.eventKey) =
      (⟨true, buf ++ (ks.map pasteKeyChars).flatten⟩, []) := by
  induction ks generalizing buf with
  | nil => simp [runEvents]
  | cons k rest ih =>
    simp [runEvents, handleEvent, ih]

/-- C6: a paste-start marker, then any `N` key events, then a paste-end marker
make exactly one call on the root component — a paste event whose text is the
concatenation of the characters contributed by those key events (`KeyRune`
events contribute their rune, `KeyEnter` a newline) — and none of the key
events received while `isPasting` is set is dispatched as an individual key
event, from any loop state. -/
theorem C6_theorem (s : PasteState) (ks : List TKeyKind) :
    (runEvents s
        ([TcellEvent.eventPaste true] ++ ks.map TcellEvent.eventKey ++
          [TcellEvent.eventPaste false])).2 =
      [RootDispatch.pasteEvt (ks.map pasteKeyChars).flatten] := by
  simp [runEvents_append, runEvents, handleEvent, runEvents_keys_while_pasting]

/-- C8 fails as stated: from the loop's initial state (`isPasting = false`,
empty buffer), a lone paste-end marker is not a no-op on the root — it
dispatches a paste event carrying the empty string. -/
theorem C8_counterexample :
    (runEvents ⟨false, []⟩ [TcellEvent.eventPaste false]).2 = [RootDispatch.pasteEvt []] ∧
    [RootDispatch.pasteEvt []] ≠ ([] : List RootDispatch) := by
  refine ⟨by decide, by decide⟩

/-- C8 (amended): a paste-end marker with no matching paste-start is not an
error: the composition state is left unchanged (`isPasting` stays false, the
buffer stays empty), no accumulated key text is delivered, but one paste event
carrying the empty string is dispatched to the root component. -/
theorem C8_amended :
    runEvents ⟨false, []⟩ [TcellEvent.eventPaste false] =
      (⟨false, []⟩, [RootDispatch.pasteEvt []]) := by
  decide

/-! ## Box mouse routing (Box.OnMouseEvent)

`Box` wraps an inner component, optionally inside a one-cell border; its
`innerScreen` is a `ProxyScreen` whose `Width`/`Height` were set by the last
`Draw`.  We model the current `Box.OnMouseEvent` (inner component present, no
mouse-capture function): the result is the updated box together with the local
coordinate forwarded to the inner component, or `none` when the event is
rejected. -/

structure BoxM where
  border : Bool
  focused : Bool
  innerWidth : Int
  innerHeight : Int
  deriving DecidableEq, Repr

/-- `Box.OnMouseEvent`: offset the event by `(-1, -1)` when `border` is set,
then reject when `x < 0 || y < 0 || x > innerScreen.Width || y > innerScreen.Height`,
else forward the offset event to the inner component.  The `Buttons()` of the
event are never consulted and `Focus()` is never called, so the box itself
(including `focused`) is returned unchanged. -/
def BoxM.onMouseEvent (box : BoxM) (x y : Int) (button1 : Bool) : BoxM × Option (Int × Int) :=
  let p := if box.border then (x - 1, y - 1) else (x, y)
  if p.1 < 0 ∨ p.2 < 0 ∨ p.1 > box.innerWidth ∨ p.2 > box.innerHeight then
    (box, none)
  else
    (box, some p)

/-- C7 fails as stated, twice over: a left-button press at surface `(1, 1)` —
inside a bordered 10×5 box — is forwarded to the child at local `(0, 0)` but
the box's `focused` flag stays `false` (`Box.OnMouseEvent` never calls
`Focus()`), and the offset coordinate `(10, 0)` — outside the half-open
interior rectangle since `10 = innerWidth` — is still forwarded because the
bounds check uses `x > Width`, not `x >= Width`. -/
theorem C7_counterexample :
    BoxM.onMouseEvent ⟨true, false, 10, 5⟩ 1 1 true = (⟨true, false, 10, 5⟩, some (0, 0)) ∧
    (BoxM.onMouseEvent ⟨true, false, 10, 5⟩ 1 1 true).1.focused = false ∧
    (BoxM.onMouseEvent ⟨true, false, 10, 5⟩ 11 1 true).2 = some (10, 0) := by
  refine ⟨by decide, by decide, by decide⟩

/-- C7 (amended): for a bordered Box, an incoming mouse event is first offset
by the border thickness `(1, 1)`; it is forwarded to the child at the offset
coordinate exactly when `1 ≤ x`, `1 ≤ y`, `x ≤ innerWidth + 1` and
`y ≤ innerHeight + 1` (the check is against the closed rectangle, one cell
wider than the interior) and rejected otherwise; `OnMouseEvent` never changes
the box — in particular it does not call `Focus()` on a left press, focus being
managed by the parent container; a click at surface `(0, 0)` on the border is
never forwarded. -/
theorem C7_amended (box : BoxM) (x y : Int) (button1 : Bool)
    (hb : box.border = true) :
    (box.onMouseEvent x y button1).1 = box ∧
    ((box.onMouseEvent x y button1).2 = some (x - 1, y - 1) ↔
      1 ≤ x ∧ 1 ≤ y ∧ x ≤ box.innerWidth + 1 ∧ y ≤ box.innerHeight + 1) ∧
    (box.onMouseEvent 0 0 button1).2 = none := by
  have heq : ∀ (a b : Int) (bb : Bool), box.onMouseEvent a b bb =
      (box,
       if a - 1 < 0 ∨ b - 1 < 0 ∨ a - 1 > box.innerWidth ∨ b - 1 > box.innerHeight then none
       else some (a - 1, b - 1)) := by
    intro a b bb
    simp only [BoxM.onMouseEvent, hb, if_true]
    split <;> rfl
  refine ⟨?_, ?_, ?_⟩
  · rw [heq]
  · rw [heq]
    by_cases h : x - 1 < 0 ∨ y - 1 < 0 ∨ x - 1 > box.innerWidth ∨ y - 1 > box.innerHeight
    · rw [if_pos h]
      constructor
      · intro hcon
        simp at hcon
      · rintro ⟨h1, h2, h3, h4⟩
        exfalso
        rcases h with h | h | h | h <;> omega
    · rw [if_neg h]
      push_neg at h
      obtain ⟨h1, h2, h3, h4⟩ := h
      constructor
      · intro _
        exact ⟨by omega, by omega, by omega, by omega⟩
      · intro _
        rfl
  · rw [heq]
    rw [if_pos (by omega : (0 : Int) - 1 < 0 ∨ (0 : Int) - 1 < 0 ∨
      (0 : Int) - 1 > box.innerWidth ∨ (0 : Int) - 1 > box.innerHeight)]

/-- Witness for `C7_amended` at the bordered 10×5 box and surface coordinate
`(2, 3)`: the event is forwarded to the child at local `(1, 2)`. -/
theorem C7_amended_witness :
    (BoxM.onMouseEvent ⟨true, false, 10, 5⟩ 2 3 true).2 = some (2 - 1, 3 - 1) :=
  ((C7_amended ⟨true, false, 10, 5⟩ 2 3 true (by decide)).2.1).mpr
    ⟨by decide, by decide, by decide, by decide⟩

/-! ## Mouse event offsetting (OffsetMouseEvent / proxyEventMouse)

A `proxyEventMouse` embeds an underlying `MouseEvent` and overrides only
`Position()`; every other accessor is forwarded to the embedded event. -/

structure BaseMouseData where
  x : Int
  y : Int
  buttons : Nat
  modifiers : Nat
  motionFlag : Bool
  deriving DecidableEq, Repr

/-- A `MouseEvent` value: either an original `*tcell.EventMouse` or a
`*proxyEventMouse` wrapping an underlying event with an overridden position. -/
inductive MouseEvt
  | base (d : BaseMouseData)
  | proxy (inner : MouseEvt) (x : Int) (y : Int)
  deriving DecidableEq, Repr

/-- `Position()`: the overridden `(x, y)` for a proxy, the event's own
coordinates otherwise. -/
def MouseEvt.Position : MouseEvt → Int × Int
  | .base d => (d.x, d.y)
  | .proxy _ x y => (x, y)

/-- `Buttons()`: forwarded to the embedded event by a proxy. -/
def MouseEvt.Buttons : MouseEvt → Nat
  | .base d => d.buttons
  | .proxy inner _ _ => inner.Buttons

/-- `Modifiers()`: forwarded to the embedded event by a proxy. -/
def MouseEvt.Modifiers : MouseEvt → Nat
  | .base d => d.modifiers
  | .proxy inner _ _ => inner.Modifiers

/-- `HasMotion()`: forwarded to the embedded event by a proxy. -/
def MouseEvt.HasMotion : MouseEvt → Bool
  | .base d => d.motionFlag
  | .proxy inner _ _ => inner.HasMotion

/-- `func OffsetMouseEvent(evt MouseEvent, offsetX, offsetY int) *proxyEventMouse`:
read `evt.Position()`, unwrap `evt` if it is itself a `*proxyEventMouse`, and
wrap the result with the translated position. -/
def OffsetMouseEvent (evt : MouseEvt) (offsetX offsetY : Int) : MouseEvt :=
  let p := evt.Position
  let inner := match evt with
    | .proxy inner _ _ => inner
    | e => e
  .proxy inner (p.1 + offsetX) (p.2 + offsetY)

/-- C10: `OffsetMouseEvent` translates the position additively; when applied to
an already-offset proxy event it wraps the proxy's underlying event rather than
the proxy (so offsets compose without nesting); and the buttons, modifiers and
motion flag of the result always agree with the original event. -/
theorem C10_theorem (evt : MouseEvt) (offsetX offsetY : Int) :
    (OffsetMouseEvent evt offsetX offsetY).Position =
      ((evt.Position).1 + offsetX, (evt.Position).2 + offsetY) ∧
    (∀ inner px py, evt = MouseEvt.proxy inner px py →
      OffsetMouseEvent evt offsetX offsetY =
        MouseEvt.proxy inner (px + offsetX) (py + offsetY)) ∧
    (OffsetMouseEvent evt offsetX offsetY).Buttons = evt.Buttons ∧
    (OffsetMouseEvent evt offsetX offsetY).Modifiers = evt.Modifiers ∧
    (OffsetMouseEvent evt offsetX offsetY).HasMotion = evt.HasMotion := by
  refine ⟨?_, ?_, ?_, ?_, ?_⟩
  · cases evt <;> rfl
  · intro inner px py h
    subst h
    rfl
  · cases evt <;> rfl
  · cases evt <;> rfl
  · cases evt <;> rfl

/-- Witness for `C10_theorem`: offsetting the proxy event at position `(3, 4)`
over a base event by `(1, 2)` yields a proxy of the same base event at
`(4, 6)`. -/
theorem C10_theorem_witness :
    OffsetMouseEvent (MouseEvt.proxy (MouseEvt.base ⟨7, 8, 1, 0, false⟩) 3 4) 1 2 =
      MouseEvt.proxy (MouseEvt.base ⟨7, 8, 1, 0, false⟩) (3 + 1) (4 + 2) :=
  (C10_theorem (MouseEvt.proxy (MouseEvt.base ⟨7, 8, 1, 0, false⟩) 3 4) 1 2).2.1
    (MouseEvt.base ⟨7, 8, 1, 0, false⟩) 3 4 rfl

end Mauview

